import Mathlib

/-!
Verification of the post pipeline (page1.js) and the audio control panel
(page2.js) of the web-audio-api repository, as a shallow embedding in Lean.

Modelling conventions:
- A JS string is modelled as a Lean `String`; the JS `<` operator on strings
  (lexicographic comparison of character codes) is modelled by `lexLt` on the
  underlying character list.
- `Array.prototype.sort` with a comparator is required by the JS spec to
  produce a stable permutation that is sorted with respect to the comparator;
  for the strict-weak-order comparator used in page1.js that output is unique,
  so it is modelled by `List.insertionSort` over the order induced by the
  comparator.
- A JS plain object used as a dictionary (as in groupByUser) enumerates its
  own keys with `Object.values` in a fixed order: keys that are canonical
  array indices (non-negative integers below 2^32 - 1) come first in ascending
  numeric order, followed by the remaining keys in insertion order.
- Asynchronous fetch/JSON/audio-decode results are modelled by environment
  functions (the outcome the browser would deliver for a given URL); a
  rejected promise or a JSON parse error is an `Except.error`.
-/

/-- A post record as fetched from the JSON endpoint (page1.js). -/
structure Post where
  id : Nat
  userId : Nat
  title : String
  body : String
deriving DecidableEq

/-- Outcome of `fetch(url)` followed by `response.json()`: either the decoded
list of posts or a thrown error (network rejection or JSON parse failure).
The argument is the `apiUrl` parameter; `none` models a call with the
argument left undefined. -/
def FetchEnv : Type := Option String → Except String (List Post)

/-- The page-scoped mutable `data` object of page1.js. -/
structure PageData where
  posts : List Post
  sortDirection : Option String
deriving DecidableEq

/-- Initial page state: `posts: [], sortDirection: undefined`. -/
def initialData : PageData := ⟨[], none⟩

/-- JS `<` on strings, on the underlying character lists: lexicographic
comparison of character codes, a strict prefix being smaller. -/
def lexLt : List Char → List Char → Bool
  | [], [] => false
  | [], _ :: _ => true
  | _ :: _, [] => false
  | a :: as, b :: bs => if a < b then true else if b < a then false else lexLt as bs

/-- JS string comparison `a < b` used by the sort comparator in page1.js. -/
def jsStrLt (a b : String) : Bool := lexLt a.data b.data

/-- The order in which the page1.js comparator leaves adjacent elements:
the comparator returns 1 when `a.title < b.title` and -1 when
`a.title > b.title`, so in the sorted output an element `a` may precede `b`
exactly when the comparator is non-positive, i.e. not `a.title < b.title`. -/
def titleOrd (a b : Post) : Prop := jsStrLt a.title b.title = false

instance : DecidableRel titleOrd := fun _ _ => instDecidableEqBool _ _

/-- page1.js sortPosts: sorts with the comparator
`(a, b) => a.title < b.title ? 1 : a.title > b.title ? -1 : 0`
and reverses the result when `dir === "desc"`. -/
def sortPosts (posts : List Post) (dir : String) : List Post :=
  let sorted := List.insertionSort titleOrd posts
  if dir = "desc" then sorted.reverse else sorted

/-- Distinct values of a list in order of first occurrence: the insertion
order of the keys of the accumulator object built by groupByUser. -/
def dedupKeys : List Nat → List Nat
  | [] => []
  | k :: ks => k :: (dedupKeys ks).filter (fun x => x ≠ k)

/-- JS object key enumeration order for the numeric keys of the groupByUser
accumulator: keys that are canonical array indices (below 2^32 - 1) in
ascending numeric order first, then the remaining keys in insertion order. -/
def jsKeyOrder (ks : List Nat) : List Nat :=
  List.insertionSort (· ≤ ·) (ks.filter (fun k => k < 4294967295))
    ++ ks.filter (fun k => ¬ k < 4294967295)

/-- page1.js groupByUser: accumulates each post into `acc[post.userId]` in
input order and returns `Object.values(acc).flat()`. Each bucket holds the
posts with that userId in input order; the buckets are concatenated in the
object's key enumeration order. -/
def groupByUser (posts : List Post) : List Post :=
  (jsKeyOrder (dedupKeys (posts.map Post.userId))).flatMap
    (fun k => posts.filter (fun p => p.userId == k))

/-- page1.js fetchPosts: awaits `fetch(apiUrl)` and `response.json()` inside a
try block; on any failure it logs the error and returns `[]`. Result: the
post list together with the console log entries produced. -/
def fetchPosts (env : FetchEnv) (apiUrl : Option String) : List Post × List String :=
  match env apiUrl with
  | .ok posts => (posts, [])
  | .error e => ([], [e])

/-- page1.js fetchAndRenderPosts: replaces `data.posts` with the fetch result
and renders. The whole async function body can no longer throw (the only
fallible awaits are caught inside fetchPosts), which the `Except.ok` wrapper
makes explicit. Result: new page state, the list handed to render, and the
console log entries. -/
def fetchAndRenderPosts (env : FetchEnv) (apiUrl : String) (st : PageData) :
    Except String (PageData × List Post × List String) :=
  let r := fetchPosts env (some apiUrl)
  .ok ({ st with posts := r.1 }, r.1, r.2)

/-- page1.js direction toggle: `data.sortDirection === "asc" ? "desc" : "asc"`. -/
def toggleDir (d : Option String) : String :=
  if d = some "asc" then "desc" else "asc"

/-- page1.js sortAndRenderPosts: if `data.posts` is empty it first refetches
with `fetchPosts()` (no argument, i.e. an undefined URL), then toggles the
direction flag, sorts, stores and renders. -/
def sortAndRenderPosts (env : FetchEnv) (st : PageData) :
    PageData × List Post × List String :=
  let r := if st.posts.length = 0 then fetchPosts env none else (st.posts, [])
  let dir := toggleDir st.sortDirection
  let ps := sortPosts r.1 dir
  (⟨ps, some dir⟩, ps, r.2)

/-- page1.js groupAndRenderPosts: if `data.posts` is empty it first refetches
with `fetchPosts()` (no argument), then groups, stores and renders. -/
def groupAndRenderPosts (env : FetchEnv) (st : PageData) :
    PageData × List Post × List String :=
  let r := if st.posts.length = 0 then fetchPosts env none else (st.posts, [])
  let ps := groupByUser r.1
  (⟨ps, st.sortDirection⟩, ps, r.2)

/-- State of one audio control entry of page2.js: the two button disabled
flags, the `sourceNode` variable captured by the click listeners, and
bookkeeping for the playback handles: `nextNodeId` numbers the
`AudioBufferSourceNode` allocations, `startLog` records the handles on which
`start()` was called (in call order), `stopLog` those on which `stop()` was
called. -/
structure AudioCtlState where
  playDisabled : Bool
  stopDisabled : Bool
  sourceNode : Option Nat
  nextNodeId : Nat
  startLog : List Nat
  stopLog : List Nat
deriving DecidableEq

/-- Entry state right after createAudioControls/createControlButtons: play
enabled, stop disabled, no source node allocated yet. -/
def initAudioCtl : AudioCtlState := ⟨false, true, none, 0, [], []⟩

/-- page2.js playAudio: allocates a brand-new buffer source node, starts it,
disables play, enables stop; the returned node is assigned to `sourceNode`
by the play click listener. -/
def playAudio (s : AudioCtlState) : AudioCtlState :=
  { s with
    sourceNode := some s.nextNodeId
    nextNodeId := s.nextNodeId + 1
    startLog := s.startLog ++ [s.nextNodeId]
    playDisabled := true
    stopDisabled := false }

/-- page2.js stopAudio: calls `stop()` on the source node if one is present,
enables play, disables stop. It returns null, but the stop click listener in
createAudioControls discards that return value, so `sourceNode` is left
unchanged. -/
def stopAudio (s : AudioCtlState) : AudioCtlState :=
  { s with
    stopLog := match s.sourceNode with
      | some n => s.stopLog ++ [n]
      | none => s.stopLog
    playDisabled := false
    stopDisabled := true }

/-- A user action on one control entry: clicking Play or clicking Stop. -/
inductive AudioEv where
  | play
  | stop
deriving DecidableEq

/-- The click listeners of createAudioControls: each first checks that its
button is not disabled and otherwise does nothing. -/
def stepAudio (s : AudioCtlState) : AudioEv → AudioCtlState
  | .play => if s.playDisabled then s else playAudio s
  | .stop => if s.stopDisabled then s else stopAudio s

/-- The entry state after a sequence of clicks, starting from the state
createAudioControls sets up. -/
def runAudio (evs : List AudioEv) : AudioCtlState :=
  evs.foldl stepAudio initAudioCtl

/-- Outcome of page2.js loadAudioFile for a URL: the decoded AudioBuffer
(represented by an opaque number) or `none` when the fetch or
decodeAudioData failed (the error is logged and swallowed). -/
def AudioEnv : Type := String → Option Nat

/-- One control entry appended to the audio control panel: its source URL
and its decoded buffer. -/
structure AudioEntry where
  url : String
  buffer : Nat
deriving DecidableEq

/-- Events observable while the DOMContentLoaded handler of page2.js runs:
the start of an item's fetch, the completion of its fetch-and-decode
(successful or not), and the appending of its control entry to the panel. -/
inductive LoadEv where
  | fetchStart (url : String)
  | loadDone (url : String) (ok : Bool)
  | append (url : String)
deriving DecidableEq

/-- page2.js loadAudioFile: one awaited fetch-and-decode; the result together
with the two events it contributes to the page trace. -/
def loadAudioFile (env : AudioEnv) (url : String) : Option Nat × List LoadEv :=
  (env url, [LoadEv.fetchStart url, LoadEv.loadDone url (env url).isSome])

/-- The complete trace block one source URL contributes: its fetch runs to
completion and, on success, its entry is appended before the next URL is
touched. -/
def loadBlock (env : AudioEnv) (url : String) : List LoadEv :=
  match env url with
  | some _ => [LoadEv.fetchStart url, LoadEv.loadDone url true, LoadEv.append url]
  | none => [LoadEv.fetchStart url, LoadEv.loadDone url false]

/-- The DOMContentLoaded handler of page2.js: a `for ... of` loop that awaits
loadAudioFile for each URL in turn and appends a control entry exactly when
the decode succeeded. Result: the panel contents and the event trace. -/
def initAudioPage (env : AudioEnv) : List String → List AudioEntry × List LoadEv
  | [] => ([], [])
  | url :: rest =>
    let r := loadAudioFile env url
    let tail := initAudioPage env rest
    match r.1 with
    | some b => (⟨url, b⟩ :: tail.1, r.2 ++ [LoadEv.append url] ++ tail.2)
    | none => (tail.1, r.2 ++ tail.2)

/-! ### Order-theoretic facts about the JS string comparison -/

theorem lexLt_irrefl (l : List Char) : lexLt l l = false := by
  induction l with
  | nil => rfl
  | cons a as ih => simp [lexLt, ih]

theorem lexLt_asymm : ∀ l₁ l₂ : List Char, lexLt l₁ l₂ = true → lexLt l₂ l₁ = false
  | [], [], h => by simp [lexLt] at h
  | [], _ :: _, _ => rfl
  | _ :: _, [], h => by simp [lexLt] at h
  | a :: as, b :: bs, h => by
    simp only [lexLt] at h ⊢
    by_cases hab : a < b
    · simp [lt_asymm hab, hab]
    · by_cases hba : b < a
      · simp [hab, hba] at h
      · simp only [hab, hba, if_false] at h ⊢
        exact lexLt_asymm as bs h

theorem lexLt_trans : ∀ l₁ l₂ l₃ : List Char,
    lexLt l₁ l₂ = true → lexLt l₂ l₃ = true → lexLt l₁ l₃ = true
  | [], [], _, h₁, _ => by simp [lexLt] at h₁
  | _ :: _, [], _, h₁, _ => by simp [lexLt] at h₁
  | [], _ :: _, [], _, h₂ => by simp [lexLt] at h₂
  | _ :: _, _ :: _, [], _, h₂ => by simp [lexLt] at h₂
  | [], _ :: _, _ :: _, _, _ => rfl
  | a :: as, b :: bs, c :: cs, h₁, h₂ => by
    simp only [lexLt] at h₁ h₂ ⊢
    by_cases hab : a < b
    · by_cases hbc : b < c
      · simp [lt_trans hab hbc]
      · by_cases hcb : c < b
        · simp [hbc, hcb] at h₂
        · have hbc2 : b = c := le_antisymm (not_lt.mp hcb) (not_lt.mp hbc)
          subst hbc2
          simp [hab]
    · by_cases hba : b < a
      · simp [hab, hba] at h₁
      · have hab2 : a = b := le_antisymm (not_lt.mp hba) (not_lt.mp hab)
        subst hab2
        simp only [lt_irrefl, if_false] at h₁
        by_cases hac : a < c
        · simp [hac]
        · by_cases hca : c < a
          · simp [hac, hca] at h₂
          · have hac2 : a = c := le_antisymm (not_lt.mp hca) (not_lt.mp hac)
            subst hac2
            simp only [lt_irrefl, if_false] at h₂ ⊢
            exact lexLt_trans as bs cs h₁ h₂

theorem lexLt_eq_of_not : ∀ l₁ l₂ : List Char,
    lexLt l₁ l₂ = false → lexLt l₂ l₁ = false → l₁ = l₂
  | [], [], _, _ => rfl
  | [], _ :: _, h₁, _ => by simp [lexLt] at h₁
  | _ :: _, [], _, h₂ => by simp [lexLt] at h₂
  | a :: as, b :: bs, h₁, h₂ => by
    simp only [lexLt] at h₁ h₂
    by_cases hab : a < b
    · simp [hab] at h₁
    · by_cases hba : b < a
      · simp [hab, hba] at h₂
      · have hab2 : a = b := le_antisymm (not_lt.mp hba) (not_lt.mp hab)
        subst hab2
        simp only [lt_irrefl, if_false] at h₁ h₂
        rw [lexLt_eq_of_not as bs h₁ h₂]

theorem jsStrLt_asymm {s t : String} (h : jsStrLt s t = true) : jsStrLt t s = false :=
  lexLt_asymm _ _ h

theorem jsStrLt_trans {s t v : String} (h₁ : jsStrLt s t = true)
    (h₂ : jsStrLt t v = true) : jsStrLt s v = true :=
  lexLt_trans _ _ _ h₁ h₂

theorem jsStrLt_eq_of_not {s t : String} (h₁ : jsStrLt s t = false)
    (h₂ : jsStrLt t s = false) : s = t :=
  String.ext (lexLt_eq_of_not _ _ h₁ h₂)

theorem titleOrd_total (a b : Post) : titleOrd a b ∨ titleOrd b a := by
  cases hb : jsStrLt a.title b.title with
  | false => exact Or.inl hb
  | true => exact Or.inr (jsStrLt_asymm hb)

theorem titleOrd_trans {a b c : Post} (h₁ : titleOrd a b) (h₂ : titleOrd b c) :
    titleOrd a c := by
  unfold titleOrd at h₁ h₂ ⊢
  cases hac : jsStrLt a.title c.title with
  | false => rfl
  | true =>
    cases hba : jsStrLt b.title a.title with
    | true => rw [jsStrLt_trans hba hac] at h₂; exact h₂
    | false =>
      have hab : a.title = b.title := jsStrLt_eq_of_not h₁ hba
      rw [hab] at hac
      rw [hac] at h₂
      exact h₂

/-! ### Uniqueness of the sorted permutation -/

theorem eq_of_sorted_of_perm_on {α : Type} {r : α → α → Prop} :
    ∀ {l₁ l₂ : List α}, l₁.Perm l₂ → l₁.Sorted r → l₂.Sorted r →
      (∀ a ∈ l₁, ∀ b ∈ l₁, r a b → r b a → a = b) → l₁ = l₂ := by
  intro l₁
  induction l₁ with
  | nil =>
    intro l₂ h _ _ _
    exact (h.symm.eq_nil).symm
  | cons a t₁ ih =>
    intro l₂ h hs₁ hs₂ anti
    cases l₂ with
    | nil => exact absurd h.eq_nil (by simp)
    | cons b t₂ =>
      have hab : a = b := by
        rcases eq_or_ne a b with he | hne
        · exact he
        · have hb₁ : b ∈ a :: t₁ := h.symm.subset (List.mem_cons_self b t₂)
          have ha₂ : a ∈ b :: t₂ := h.subset (List.mem_cons_self a t₁)
          have hbt₁ : b ∈ t₁ := by
            rcases List.mem_cons.mp hb₁ with hh | hh
            · exact absurd hh.symm hne
            · exact hh
          have hat₂ : a ∈ t₂ := by
            rcases List.mem_cons.mp ha₂ with hh | hh
            · exact absurd hh hne
            · exact hh
          exact anti a (List.mem_cons_self a t₁) b hb₁
            (List.rel_of_sorted_cons hs₁ b hbt₁) (List.rel_of_sorted_cons hs₂ a hat₂)
      subst hab
      have ht : t₁.Perm t₂ := h.cons_inv
      rw [ih ht hs₁.of_cons hs₂.of_cons
        (fun x hx y hy hxy hyx => anti x (List.mem_cons_of_mem a hx)
          y (List.mem_cons_of_mem a hy) hxy hyx)]

theorem sorted_insertionSort_titleOrd (l : List Post) :
    List.Sorted titleOrd (List.insertionSort titleOrd l) := by
  haveI : IsTotal Post titleOrd := ⟨titleOrd_total⟩
  haveI : IsTrans Post titleOrd := ⟨fun _ _ _ h₁ h₂ => titleOrd_trans h₁ h₂⟩
  exact List.sorted_insertionSort _ _

theorem insertionSort_titleOrd_congr {p q : List Post} (hqp : q.Perm p)
    (hnd : (p.map Post.title).Nodup) :
    List.insertionSort titleOrd q = List.insertionSort titleOrd p := by
  apply eq_of_sorted_of_perm_on
  · exact (List.perm_insertionSort _ q).trans (hqp.trans (List.perm_insertionSort _ p).symm)
  · exact sorted_insertionSort_titleOrd q
  · exact sorted_insertionSort_titleOrd p
  · intro x hx y hy hxy hyx
    have hxp : x ∈ p := hqp.subset ((List.perm_insertionSort titleOrd q).subset hx)
    have hyp : y ∈ p := hqp.subset ((List.perm_insertionSort titleOrd q).subset hy)
    exact List.inj_on_of_nodup_map hnd hxp hyp (jsStrLt_eq_of_not hxy hyx)

theorem sortPosts_perm (posts : List Post) (dir : String) :
    (sortPosts posts dir).Perm posts := by
  show (if dir = "desc" then (List.insertionSort titleOrd posts).reverse
      else List.insertionSort titleOrd posts).Perm posts
  by_cases h : dir = "desc"
  · rw [if_pos h]
    exact (List.reverse_perm _).trans (List.perm_insertionSort _ _)
  · rw [if_neg h]
    exact List.perm_insertionSort _ _

theorem sortPosts_congr {p q : List Post} (hqp : q.Perm p)
    (hnd : (p.map Post.title).Nodup) (dir : String) :
    sortPosts q dir = sortPosts p dir := by
  show (if dir = "desc" then (List.insertionSort titleOrd q).reverse
      else List.insertionSort titleOrd q)
    = (if dir = "desc" then (List.insertionSort titleOrd p).reverse
      else List.insertionSort titleOrd p)
  rw [insertionSort_titleOrd_congr hqp hnd]

/-! ### Facts about the groupByUser key order and bucket structure -/

theorem flatMap_congr_mem {α β : Type} {l : List α} {f g : α → List β}
    (h : ∀ a ∈ l, f a = g a) : l.flatMap f = l.flatMap g := by
  induction l with
  | nil => rfl
  | cons a t ih =>
    rw [List.flatMap_cons, List.flatMap_cons, h a (List.mem_cons_self a t),
      ih (fun x hx => h x (List.mem_cons_of_mem a hx))]

theorem dedupKeys_mem : ∀ {l : List Nat} {x : Nat}, x ∈ dedupKeys l ↔ x ∈ l := by
  intro l
  induction l with
  | nil => intro x; simp [dedupKeys]
  | cons k ks ih =>
    intro x
    simp only [dedupKeys, List.mem_cons, List.mem_filter, ih, decide_eq_true_eq]
    constructor
    · rintro (rfl | ⟨hx, _⟩)
      · exact Or.inl rfl
      · exact Or.inr hx
    · rintro (rfl | hx)
      · exact Or.inl rfl
      · by_cases hxk : x = k
        · exact Or.inl hxk
        · exact Or.inr ⟨hx, hxk⟩

theorem dedupKeys_nodup : ∀ l : List Nat, (dedupKeys l).Nodup
  | [] => List.nodup_nil
  | k :: ks => by
    simp only [dedupKeys]
    rw [List.nodup_cons]
    constructor
    · intro hmem
      have hne := (List.mem_filter.mp hmem).2
      simp at hne
    · exact (dedupKeys_nodup ks).filter _

theorem jsKeyOrder_mem {ks : List Nat} {x : Nat} : x ∈ jsKeyOrder ks ↔ x ∈ ks := by
  unfold jsKeyOrder
  rw [List.mem_append, (List.perm_insertionSort _ _).mem_iff]
  simp only [List.mem_filter, decide_eq_true_eq]
  by_cases h : x < 4294967295 <;> simp [h]

theorem jsKeyOrder_nodup {ks : List Nat} (h : ks.Nodup) : (jsKeyOrder ks).Nodup := by
  unfold jsKeyOrder
  apply List.Nodup.append
  · exact (List.perm_insertionSort _ _).symm.nodup (h.filter _)
  · exact h.filter _
  · intro x hx₁ hx₂
    have hlt := (List.mem_filter.mp ((List.perm_insertionSort _ _).subset hx₁)).2
    have hge := (List.mem_filter.mp hx₂).2
    simp only [decide_eq_true_eq] at hlt hge
    exact hge hlt

theorem userId_eq_of_mem_bucket {posts : List Post} {k : Nat} {q : Post}
    (hq : q ∈ posts.filter (fun p => p.userId == k)) : q.userId = k := by
  have h := (List.mem_filter.mp hq).2
  simp only [beq_iff_eq] at h
  exact h

theorem groups_tail_eq {k : Nat} {ks : List Nat} (hk : k ∉ ks) (posts : List Post) :
    ks.flatMap (fun ki => posts.filter (fun p => p.userId == ki))
      = ks.flatMap (fun ki =>
          (posts.filter (fun p => !(p.userId == k))).filter (fun p => p.userId == ki)) := by
  apply flatMap_congr_mem
  intro ki hki
  rw [List.filter_filter]
  apply List.filter_congr
  intro p _
  by_cases hp : p.userId = ki
  · have hkik : ki ≠ k := fun he => hk (he ▸ hki)
    simp [hp, hkik]
  · simp [hp]

theorem flatMap_groups_filter (u : Nat) :
    ∀ (keys : List Nat) (posts : List Post), keys.Nodup →
      (∀ p ∈ posts, p.userId ∈ keys) →
      (keys.flatMap (fun k => posts.filter (fun p => p.userId == k))).filter
          (fun p => p.userId == u)
        = posts.filter (fun p => p.userId == u)
  | [], posts, _, hcov => by
    have hnil : posts.filter (fun p => p.userId == u) = [] := by
      rw [List.filter_eq_nil_iff]
      intro p hp _
      exact absurd (hcov p hp) (List.not_mem_nil _)
    simp [hnil]
  | k :: ks, posts, hnd, hcov => by
    have hk : k ∉ ks := (List.nodup_cons.mp hnd).1
    rw [List.flatMap_cons, List.filter_append, groups_tail_eq hk posts,
      flatMap_groups_filter u ks (posts.filter (fun p => !(p.userId == k)))
        (List.nodup_cons.mp hnd).2
        (by
          intro p hp
          have hmem := List.mem_filter.mp hp
          have hne : p.userId ≠ k := by
            intro he
            have := hmem.2
            simp [he] at this
          rcases List.mem_cons.mp (hcov p hmem.1) with he | hin
          · exact absurd he hne
          · exact hin)]
    by_cases hu : u = k
    · subst hu
      have h₁ : (posts.filter (fun p => p.userId == u)).filter (fun p => p.userId == u)
          = posts.filter (fun p => p.userId == u) := by
        rw [List.filter_filter]
        apply List.filter_congr
        intro p _
        by_cases hp : p.userId = u <;> simp [hp]
      have h₂ : (posts.filter (fun p => !(p.userId == u))).filter (fun p => p.userId == u)
          = [] := by
        rw [List.filter_eq_nil_iff]
        intro p hp hpu
        have := (List.mem_filter.mp hp).2
        rw [hpu] at this
        simp at this
      rw [h₁, h₂, List.append_nil]
    · have h₁ : (posts.filter (fun p => p.userId == k)).filter (fun p => p.userId == u)
          = [] := by
        rw [List.filter_eq_nil_iff]
        intro p hp hpu
        have hpk := userId_eq_of_mem_bucket hp
        simp only [beq_iff_eq] at hpu
        exact hu (hpu ▸ hpk)
      have h₂ : (posts.filter (fun p => !(p.userId == k))).filter (fun p => p.userId == u)
          = posts.filter (fun p => p.userId == u) := by
        rw [List.filter_filter]
        apply List.filter_congr
        intro p _
        by_cases hp : p.userId = u
        · have hpk : p.userId ≠ k := fun he => hu (hp ▸ he ▸ rfl)
          simp [hp, hpk, hu]
        · simp [hp]
      rw [h₁, h₂, List.nil_append]

theorem flatMap_groups_perm :
    ∀ (keys : List Nat) (posts : List Post), keys.Nodup →
      (∀ p ∈ posts, p.userId ∈ keys) →
      (keys.flatMap (fun k => posts.filter (fun p => p.userId == k))).Perm posts
  | [], posts, _, hcov => by
    have hnil : posts = [] := by
      rw [List.eq_nil_iff_forall_not_mem]
      intro p hp
      exact absurd (hcov p hp) (List.not_mem_nil _)
    subst hnil
    rfl
  | k :: ks, posts, hnd, hcov => by
    have hk : k ∉ ks := (List.nodup_cons.mp hnd).1
    rw [List.flatMap_cons, groups_tail_eq hk posts]
    have htail := flatMap_groups_perm ks (posts.filter (fun p => !(p.userId == k)))
      (List.nodup_cons.mp hnd).2
      (by
        intro p hp
        have hmem := List.mem_filter.mp hp
        have hne : p.userId ≠ k := by
          intro he
          have := hmem.2
          simp [he] at this
        rcases List.mem_cons.mp (hcov p hmem.1) with he | hin
        · exact absurd he hne
        · exact hin)
    exact ((htail.append_left (posts.filter (fun p => p.userId == k)))).trans
      (List.filter_append_perm _ posts)

theorem groupByUser_coverage (posts : List Post) :
    ∀ p ∈ posts, p.userId ∈ jsKeyOrder (dedupKeys (posts.map Post.userId)) := by
  intro p hp
  rw [jsKeyOrder_mem, dedupKeys_mem]
  exact List.mem_map_of_mem Post.userId hp

theorem flatMap_groups_sandwich (keys : List Nat) (posts : List Post) (u : Nat)
    (hnd : keys.Nodup) (hcov : ∀ p ∈ posts, p.userId ∈ keys) :
    ∃ pre suf, keys.flatMap (fun k => posts.filter (fun p => p.userId == k))
        = pre ++ posts.filter (fun p => p.userId == u) ++ suf
      ∧ (∀ q ∈ pre, q.userId ≠ u) ∧ (∀ q ∈ suf, q.userId ≠ u) := by
  by_cases hu : u ∈ keys
  · obtain ⟨l₁, l₂, rfl⟩ := List.append_of_mem hu
    have hnd' := hnd
    rw [List.nodup_append] at hnd'
    have hul₁ : u ∉ l₁ := fun hmem => hnd'.2.2 hmem (List.mem_cons_self u l₂)
    have hul₂ : u ∉ l₂ := (List.nodup_cons.mp hnd'.2.1).1
    refine ⟨l₁.flatMap (fun k => posts.filter (fun p => p.userId == k)),
      l₂.flatMap (fun k => posts.filter (fun p => p.userId == k)), ?_, ?_, ?_⟩
    · rw [List.flatMap_append, List.flatMap_cons, List.append_assoc]
    · intro q hq
      obtain ⟨k, hk, hqf⟩ := List.mem_flatMap.mp hq
      rw [userId_eq_of_mem_bucket hqf]
      exact fun he => hul₁ (he ▸ hk)
    · intro q hq
      obtain ⟨k, hk, hqf⟩ := List.mem_flatMap.mp hq
      rw [userId_eq_of_mem_bucket hqf]
      exact fun he => hul₂ (he ▸ hk)
  · refine ⟨keys.flatMap (fun k => posts.filter (fun p => p.userId == k)), [], ?_, ?_, by simp⟩
    · have hfu : posts.filter (fun p => p.userId == u) = [] := by
        rw [List.filter_eq_nil_iff]
        intro p hp hpu
        simp only [beq_iff_eq] at hpu
        exact hu (hpu ▸ hcov p hp)
      rw [hfu, List.append_nil, List.append_nil]
    · intro q hq
      obtain ⟨k, hk, hqf⟩ := List.mem_flatMap.mp hq
      rw [userId_eq_of_mem_bucket hqf]
      exact fun he => hu (he ▸ hk)

theorem pairwise_le_of_const {l : List Nat} {k : Nat} (h : ∀ x ∈ l, x = k) :
    l.Pairwise (fun a b => a ≤ b) := by
  induction l with
  | nil => exact List.Pairwise.nil
  | cons a t ih =>
    rw [List.pairwise_cons]
    refine ⟨?_, ih (fun x hx => h x (List.mem_cons_of_mem a hx))⟩
    intro b hb
    rw [h a (List.mem_cons_self a t), h b (List.mem_cons_of_mem a hb)]

theorem sorted_flatMap_userIds :
    ∀ (keys : List Nat) (posts : List Post), keys.Sorted (· ≤ ·) →
      ((keys.flatMap (fun k => posts.filter (fun p => p.userId == k))).map
        Post.userId).Sorted (· ≤ ·)
  | [], _, _ => by simp
  | k :: ks, posts, hs => by
    rw [List.flatMap_cons, List.map_append]
    apply List.pairwise_append.mpr
    refine ⟨?_, ?_, ?_⟩
    · apply pairwise_le_of_const
      intro x hx
      obtain ⟨p, hpf, rfl⟩ := List.mem_map.mp hx
      exact userId_eq_of_mem_bucket hpf
    · exact sorted_flatMap_userIds ks posts hs.of_cons
    · intro a ha b hb
      obtain ⟨p, hpf, rfl⟩ := List.mem_map.mp ha
      obtain ⟨q, hqf, rfl⟩ := List.mem_map.mp hb
      obtain ⟨k2, hk2, hq⟩ := List.mem_flatMap.mp hqf
      rw [userId_eq_of_mem_bucket hpf, userId_eq_of_mem_bucket hq]
      exact List.rel_of_sorted_cons hs k2 hk2

theorem jsKeyOrder_sorted_of_all_index {ks : List Nat}
    (h : ∀ k ∈ ks, k < 4294967295) : (jsKeyOrder ks).Sorted (· ≤ ·) := by
  unfold jsKeyOrder
  have h₂ : ks.filter (fun k => ¬ k < 4294967295) = [] := by
    rw [List.filter_eq_nil_iff]
    intro k hk
    simp [h k hk]
  rw [h₂, List.append_nil]
  exact List.sorted_insertionSort _ _

/-! ### Audio control entry invariants -/

theorem runAudio_inv (evs : List AudioEv) :
    (runAudio evs).stopDisabled = !(runAudio evs).playDisabled
      ∧ (∀ i ∈ (runAudio evs).startLog, i < (runAudio evs).nextNodeId)
      ∧ (runAudio evs).startLog.Pairwise (· < ·) := by
  have gen : ∀ (l : List AudioEv) (s : AudioCtlState),
      (s.stopDisabled = !s.playDisabled ∧ (∀ i ∈ s.startLog, i < s.nextNodeId)
        ∧ s.startLog.Pairwise (· < ·)) →
      ((l.foldl stepAudio s).stopDisabled = !(l.foldl stepAudio s).playDisabled
        ∧ (∀ i ∈ (l.foldl stepAudio s).startLog, i < (l.foldl stepAudio s).nextNodeId)
        ∧ (l.foldl stepAudio s).startLog.Pairwise (· < ·)) := by
    intro l
    induction l with
    | nil => intro s h; exact h
    | cons e es ih =>
      intro s h
      rw [List.foldl_cons]
      apply ih
      cases e with
      | play =>
        by_cases hp : s.playDisabled
        · have hred : stepAudio s AudioEv.play = s := by simp [stepAudio, hp]
          rw [hred]
          exact h
        · have hred : stepAudio s AudioEv.play = playAudio s := by simp [stepAudio, hp]
          rw [hred]
          refine ⟨rfl, ?_, ?_⟩
          · intro i hi
            rcases List.mem_append.mp hi with hi | hi
            · exact Nat.lt_succ_of_lt (h.2.1 i hi)
            · rw [List.mem_singleton.mp hi]
              exact Nat.lt_succ_self _
          · apply List.pairwise_append.mpr
            refine ⟨h.2.2, List.pairwise_singleton _ _, ?_⟩
            intro a ha b hb
            rw [List.mem_singleton.mp hb]
            exact h.2.1 a ha
      | stop =>
        by_cases hp : s.stopDisabled
        · have hred : stepAudio s AudioEv.stop = s := by simp [stepAudio, hp]
          rw [hred]
          exact h
        · have hred : stepAudio s AudioEv.stop = stopAudio s := by simp [stepAudio, hp]
          rw [hred]
          exact ⟨rfl, h.2.1, h.2.2⟩
  exact gen evs initAudioCtl ⟨rfl, by intro i hi; exact absurd hi (List.not_mem_nil i),
    List.Pairwise.nil⟩

/-! ### Audio panel initialization structure -/

theorem initAudioPage_panel (env : AudioEnv) :
    ∀ urls : List String, (initAudioPage env urls).1
      = urls.filterMap (fun u => (env u).map (fun b => AudioEntry.mk u b))
  | [] => rfl
  | url :: rest => by
    show (match env url with
      | some b => (AudioEntry.mk url b :: (initAudioPage env rest).1,
          (loadAudioFile env url).2 ++ [LoadEv.append url] ++ (initAudioPage env rest).2)
      | none => ((initAudioPage env rest).1,
          (loadAudioFile env url).2 ++ (initAudioPage env rest).2)).1 = _
    rw [List.filterMap_cons]
    cases henv : env url with
    | some b =>
      rw [initAudioPage_panel env rest]
      rfl
    | none =>
      rw [initAudioPage_panel env rest]
      rfl

theorem initAudioPage_trace (env : AudioEnv) :
    ∀ urls : List String, (initAudioPage env urls).2 = urls.flatMap (loadBlock env)
  | [] => rfl
  | url :: rest => by
    show (match env url with
      | some b => (AudioEntry.mk url b :: (initAudioPage env rest).1,
          (loadAudioFile env url).2 ++ [LoadEv.append url] ++ (initAudioPage env rest).2)
      | none => ((initAudioPage env rest).1,
          (loadAudioFile env url).2 ++ (initAudioPage env rest).2)).2 = _
    rw [List.flatMap_cons]
    cases henv : env url with
    | some b =>
      simp only [initAudioPage_trace env rest, loadAudioFile, loadBlock, henv]
      rfl
    | none =>
      simp only [initAudioPage_trace env rest, loadAudioFile, loadBlock, henv]
      rfl

/-! ### Claim theorems -/

/-- Claim C1: the claim states that direction "asc" yields the ascending
lexicographic order of titles. Evaluating the code at the claim's own example
input shows the opposite: the comparator returns 1 when `a.title < b.title`,
so sortPosts with "asc" orders titles B, A, C as C, B, A (descending), not
as the ascending A, B, C required by the claim and by the function's own
documentation. -/
theorem C1_sortPosts_asc_failing_input :
    (sortPosts [⟨1, 1, "B", "b1"⟩, ⟨2, 1, "A", "b2"⟩, ⟨3, 1, "C", "b3"⟩] "asc").map
        Post.title
      = ["C", "B", "A"]
    ∧ (sortPosts [⟨1, 1, "B", "b1"⟩, ⟨2, 1, "A", "b2"⟩, ⟨3, 1, "C", "b3"⟩] "desc").map
        Post.title
      = ["A", "B", "C"]
    ∧ (["C", "B", "A"] : List String) ≠ ["A", "B", "C"] := by
  refine ⟨by decide, by decide, by decide⟩

/-- Claim C9: for every list of post records and either direction, sortPosts
returns a permutation of its input: the multiset of records is unchanged. -/
theorem C9_sortPosts_perm (posts : List Post) (dir : String) :
    (sortPosts posts dir).Perm posts :=
  sortPosts_perm posts dir

/-- Claim C10: for every list of post records, groupByUser returns a
permutation of its input: every record appears exactly once, none added or
dropped. -/
theorem C10_groupByUser_perm (posts : List Post) : (groupByUser posts).Perm posts := by
  show ((jsKeyOrder (dedupKeys (posts.map Post.userId))).flatMap
      (fun k => posts.filter (fun p => p.userId == k))).Perm posts
  exact flatMap_groups_perm _ posts (jsKeyOrder_nodup (dedupKeys_nodup _))
    (groupByUser_coverage posts)

/-- Claim C2 counterexample: on input with userIds [2, 1, 2], groupByUser
returns userIds [1, 2, 2] — the accumulator object enumerates its integer
keys in ascending numeric order — not the first-encounter order [2, 2, 1]
stated by the claim. -/
theorem C2_groupByUser_counterexample :
    (groupByUser [⟨1, 2, "t1", "b1"⟩, ⟨2, 1, "t2", "b2"⟩, ⟨3, 2, "t3", "b3"⟩]).map
        Post.userId
      = [1, 2, 2]
    ∧ ([1, 2, 2] : List Nat) ≠ [2, 2, 1] := by
  refine ⟨by decide, by decide⟩

/-- Claim C2 amended: groupByUser keeps all records sharing a userId
contiguous and preserves the within-group relative order from the input, but
the groups are ordered by ascending userId value (for userIds in the JS
array-index range, below 2^32 - 1), not by first encounter. -/
theorem C2_groupByUser_amended (posts : List Post) :
    (∀ u : Nat, (groupByUser posts).filter (fun p => p.userId == u)
        = posts.filter (fun p => p.userId == u))
    ∧ (∀ u : Nat, ∃ pre suf, groupByUser posts
          = pre ++ posts.filter (fun p => p.userId == u) ++ suf
        ∧ (∀ q ∈ pre, q.userId ≠ u) ∧ (∀ q ∈ suf, q.userId ≠ u))
    ∧ ((∀ p ∈ posts, p.userId < 4294967295) →
        ((groupByUser posts).map Post.userId).Sorted (· ≤ ·)) := by
  refine ⟨?_, ?_, ?_⟩
  · intro u
    show ((jsKeyOrder (dedupKeys (posts.map Post.userId))).flatMap
        (fun k => posts.filter (fun p => p.userId == k))).filter
          (fun p => p.userId == u)
      = posts.filter (fun p => p.userId == u)
    exact flatMap_groups_filter u _ posts (jsKeyOrder_nodup (dedupKeys_nodup _))
      (groupByUser_coverage posts)
  · intro u
    show ∃ pre suf, (jsKeyOrder (dedupKeys (posts.map Post.userId))).flatMap
          (fun k => posts.filter (fun p => p.userId == k))
        = pre ++ posts.filter (fun p => p.userId == u) ++ suf
      ∧ (∀ q ∈ pre, q.userId ≠ u) ∧ (∀ q ∈ suf, q.userId ≠ u)
    exact flatMap_groups_sandwich _ posts u (jsKeyOrder_nodup (dedupKeys_nodup _))
      (groupByUser_coverage posts)
  · intro h
    show (((jsKeyOrder (dedupKeys (posts.map Post.userId))).flatMap
        (fun k => posts.filter (fun p => p.userId == k))).map Post.userId).Sorted (· ≤ ·)
    apply sorted_flatMap_userIds
    apply jsKeyOrder_sorted_of_all_index
    intro k hk
    obtain ⟨p, hp, rfl⟩ := List.mem_map.mp (dedupKeys_mem.mp hk)
    exact h p hp

/-- Witness for the amended claim C2, at the counterexample input: the output
userIds [1, 2, 2] are sorted ascending. -/
theorem C2_groupByUser_amended_witness :
    ((groupByUser [⟨1, 2, "t1", "b1"⟩, ⟨2, 1, "t2", "b2"⟩, ⟨3, 2, "t3", "b3"⟩]).map
      Post.userId).Sorted (· ≤ ·) :=
  (C2_groupByUser_amended _).2.2 (by decide)

/-- Claim C3: when the environment makes the fetch reject or the body fail to
parse (an error result), fetchAndRenderPosts logs the condition, replaces the
session post collection with the empty sequence, still invokes render on that
empty sequence, and returns normally (Except.ok) rather than propagating the
failure to its caller. -/
theorem C3_fetch_failure_contract (env : FetchEnv) (apiUrl : String)
    (st : PageData) (e : String) (h : env (some apiUrl) = Except.error e) :
    fetchAndRenderPosts env apiUrl st
      = Except.ok (⟨[], st.sortDirection⟩, ([] : List Post), [e]) := by
  unfold fetchAndRenderPosts fetchPosts
  rw [h]

/-- Witness for claim C3 at a concrete rejecting environment. -/
theorem C3_fetch_failure_contract_witness :
    fetchAndRenderPosts (fun _ => Except.error "network down")
        "https://example.com/posts" initialData
      = Except.ok (⟨[], none⟩, ([] : List Post), ["network down"]) :=
  C3_fetch_failure_contract _ _ _ _ rfl

/-- Claim C4: each audio control entry is a two-state machine that starts in
Stopped (play enabled, stop disabled); after any sequence of clicks the two
button states are mutually exclusive and no handle has ever been started
twice; a Play while enabled allocates a brand-new (never-started) handle,
starts it, disables Play and enables Stop; a Play while disabled changes
nothing; a Stop while enabled re-enables Play and disables Stop. -/
theorem C4_audio_state_machine (evs : List AudioEv) :
    (runAudio []).playDisabled = false
    ∧ (runAudio []).stopDisabled = true
    ∧ (runAudio evs).stopDisabled = !(runAudio evs).playDisabled
    ∧ (runAudio evs).startLog.Nodup
    ∧ ((runAudio evs).playDisabled = true →
        stepAudio (runAudio evs) AudioEv.play = runAudio evs)
    ∧ ((runAudio evs).playDisabled = false →
        stepAudio (runAudio evs) AudioEv.play = playAudio (runAudio evs)
        ∧ (runAudio evs).nextNodeId ∉ (runAudio evs).startLog
        ∧ (playAudio (runAudio evs)).sourceNode = some (runAudio evs).nextNodeId
        ∧ (playAudio (runAudio evs)).startLog
            = (runAudio evs).startLog ++ [(runAudio evs).nextNodeId]
        ∧ (playAudio (runAudio evs)).playDisabled = true
        ∧ (playAudio (runAudio evs)).stopDisabled = false)
    ∧ ((runAudio evs).stopDisabled = false →
        (stepAudio (runAudio evs) AudioEv.stop).playDisabled = false
        ∧ (stepAudio (runAudio evs) AudioEv.stop).stopDisabled = true) := by
  obtain ⟨hmx, hbound, hpw⟩ := runAudio_inv evs
  refine ⟨rfl, rfl, hmx, ?_, ?_, ?_, ?_⟩
  · exact hpw.imp (fun hlt => Nat.ne_of_lt hlt)
  · intro hp
    simp [stepAudio, hp]
  · intro hp
    refine ⟨by simp [stepAudio, hp], ?_, rfl, rfl, rfl, rfl⟩
    intro hmem
    exact absurd (hbound _ hmem) (Nat.lt_irrefl _)
  · intro hs
    have hred : stepAudio (runAudio evs) AudioEv.stop = stopAudio (runAudio evs) := by
      simp [stepAudio, hs]
    rw [hred]
    exact ⟨rfl, rfl⟩

/-- Witness for claim C4: after one Play, the Play button is disabled and a
second Play click leaves the state unchanged. -/
theorem C4_audio_state_machine_witness :
    stepAudio (runAudio [AudioEv.play]) AudioEv.play = runAudio [AudioEv.play] :=
  (C4_audio_state_machine [AudioEv.play]).2.2.2.2.1 (by decide)

/-- Claim C7 counterexample: after Play then Stop the entry is in the Stopped
button state, yet it still holds the (stopped) playback handle: `sourceNode`
is `some 0`, not absent — stopAudio returns null but the stop click listener
never assigns it to `sourceNode`. -/
theorem C7_stop_keeps_handle_counterexample :
    (runAudio [AudioEv.play, AudioEv.stop]).playDisabled = false
    ∧ (runAudio [AudioEv.play, AudioEv.stop]).stopDisabled = true
    ∧ (runAudio [AudioEv.play, AudioEv.stop]).sourceNode = some 0
    ∧ (runAudio [AudioEv.play, AudioEv.stop]).sourceNode ≠ none := by
  refine ⟨by decide, by decide, by decide, by decide⟩

/-- Claim C7 amended: a Stop action (permitted while Stop is enabled) halts
the active handle if one is present, re-enables Play and disables Stop, but
does not discard the handle: `sourceNode` is left unchanged, so the entry
still references the stopped handle until the next Play replaces it. -/
theorem C7_stop_amended (s : AudioCtlState) (h : s.stopDisabled = false) :
    (stepAudio s AudioEv.stop).playDisabled = false
    ∧ (stepAudio s AudioEv.stop).stopDisabled = true
    ∧ (stepAudio s AudioEv.stop).sourceNode = s.sourceNode
    ∧ (∀ n : Nat, s.sourceNode = some n →
        (stepAudio s AudioEv.stop).stopLog = s.stopLog ++ [n])
    ∧ (s.sourceNode = none → (stepAudio s AudioEv.stop).stopLog = s.stopLog) := by
  have hred : stepAudio s AudioEv.stop = stopAudio s := by simp [stepAudio, h]
  rw [hred]
  refine ⟨rfl, rfl, rfl, ?_, ?_⟩
  · intro n hn
    simp [stopAudio, hn]
  · intro hn
    simp [stopAudio, hn]

/-- Witness for the amended claim C7: stopping after one Play keeps the
handle referenced. -/
theorem C7_stop_amended_witness :
    (stepAudio (runAudio [AudioEv.play]) AudioEv.stop).sourceNode
      = (runAudio [AudioEv.play]).sourceNode :=
  (C7_stop_amended (runAudio [AudioEv.play]) (by decide)).2.2.1

/-- Claim C5 counterexample: a non-empty collection with the distinct titles
B, A, C (direction flag unset) is not returned to its original ordering by
two successive sortAndRenderPosts invocations: the titles end up as A, B, C,
which differs from the original B, A, C. -/
theorem C5_round_trip_counterexample :
    ((sortAndRenderPosts (fun _ => Except.error "down")
        (sortAndRenderPosts (fun _ => Except.error "down")
          ⟨[⟨1, 1, "B", "b1"⟩, ⟨2, 1, "A", "b2"⟩, ⟨3, 1, "C", "b3"⟩], none⟩).1).1).posts.map
        Post.title
      = ["A", "B", "C"]
    ∧ (["A", "B", "C"] : List String) ≠ ["B", "A", "C"] := by
  refine ⟨by decide, by decide⟩

/-- Claim C5 amended: for every non-empty, duplicate-title-free collection
and any direction flag, two successive sortAndRenderPosts invocations leave
the collection in the ordering sortPosts produces for the direction reached
after the two toggles (and set the flag to that direction); consequently the
original ordering is restored exactly when the collection was already in
that ordering — in particular, whenever the direction flag was set ("asc" or
"desc") and the collection was in the ordering sortPosts had produced for
it, both the ordering and the flag are restored. -/
theorem C5_round_trip_amended (env : FetchEnv) (p : List Post) (d : Option String)
    (hne : p ≠ []) (hnd : (p.map Post.title).Nodup) :
    (sortAndRenderPosts env (sortAndRenderPosts env ⟨p, d⟩).1).1
      = ⟨sortPosts p (toggleDir (some (toggleDir d))),
        some (toggleDir (some (toggleDir d)))⟩
    ∧ ((sortAndRenderPosts env (sortAndRenderPosts env ⟨p, d⟩).1).1.posts = p
        ↔ sortPosts p (toggleDir (some (toggleDir d))) = p)
    ∧ ((d = some "asc" ∨ d = some "desc") →
        sortPosts p (toggleDir (some (toggleDir d))) = p →
        (sortAndRenderPosts env (sortAndRenderPosts env ⟨p, d⟩).1).1 = ⟨p, d⟩) := by
  have hlen : ¬ p.length = 0 := fun h0 => hne (List.length_eq_zero.mp h0)
  have h₁ : (sortAndRenderPosts env ⟨p, d⟩).1
      = ⟨sortPosts p (toggleDir d), some (toggleDir d)⟩ := by
    simp only [sortAndRenderPosts, hlen, if_false]
  have hne₁ : sortPosts p (toggleDir d) ≠ [] := by
    intro h0
    have hp := sortPosts_perm p (toggleDir d)
    rw [h0] at hp
    exact hne (hp.symm.eq_nil)
  have hlen₁ : ¬ (sortPosts p (toggleDir d)).length = 0 :=
    fun h0 => hne₁ (List.length_eq_zero.mp h0)
  have h₂ : (sortAndRenderPosts env ⟨sortPosts p (toggleDir d), some (toggleDir d)⟩).1
      = ⟨sortPosts (sortPosts p (toggleDir d)) (toggleDir (some (toggleDir d))),
        some (toggleDir (some (toggleDir d)))⟩ := by
    simp only [sortAndRenderPosts, hlen₁, if_false]
  have h₃ : sortPosts (sortPosts p (toggleDir d)) (toggleDir (some (toggleDir d)))
      = sortPosts p (toggleDir (some (toggleDir d))) :=
    sortPosts_congr (sortPosts_perm p (toggleDir d)) hnd _
  have hfin : (sortAndRenderPosts env (sortAndRenderPosts env ⟨p, d⟩).1).1
      = ⟨sortPosts p (toggleDir (some (toggleDir d))),
        some (toggleDir (some (toggleDir d)))⟩ := by
    rw [h₁, h₂, h₃]
  refine ⟨hfin, ?_, ?_⟩
  · rw [hfin]
  · intro hd hsorted
    rw [hfin, hsorted]
    rcases hd with hd | hd
    · subst hd
      have ht : toggleDir (some (toggleDir (some "asc"))) = "asc" := by decide
      rw [ht]
    · subst hd
      have ht : toggleDir (some (toggleDir (some "desc"))) = "desc" := by decide
      rw [ht]

/-- Witness for the amended claim C5: starting from flag "asc" with the
collection in the ordering sortPosts produces for "asc" (titles C, B, A),
two invocations restore both the ordering and the flag. -/
theorem C5_round_trip_amended_witness :
    (sortAndRenderPosts (fun _ => Except.error "down")
        (sortAndRenderPosts (fun _ => Except.error "down")
          ⟨[⟨1, 1, "C", "b1"⟩, ⟨2, 1, "B", "b2"⟩, ⟨3, 1, "A", "b3"⟩], some "asc"⟩).1).1
      = ⟨[⟨1, 1, "C", "b1"⟩, ⟨2, 1, "B", "b2"⟩, ⟨3, 1, "A", "b3"⟩], some "asc"⟩ :=
  (C5_round_trip_amended _ _ _ (by decide) (by decide)).2.2 (Or.inl rfl) (by decide)

/-- Claim C6 counterexample: with an empty session collection and no prior
fetch, sortAndRenderPosts issues its implicit fetch with no endpoint at all:
under an environment in which every endpoint URL successfully returns one
post while the undefined URL rejects, the result is the empty collection
with the rejection logged — had any previously supplied endpoint been used,
the post would have been fetched and rendered. -/
theorem C6_implicit_fetch_counterexample :
    sortAndRenderPosts
        (fun o => match o with
          | some _ => Except.ok [⟨1, 1, "T", "b"⟩]
          | none => Except.error "undefined url")
        ⟨[], none⟩
      = (⟨[], some "asc"⟩, ([] : List Post), ["undefined url"])
    ∧ (fetchPosts
        (fun o => match o with
          | some _ => Except.ok [⟨1, 1, "T", "b"⟩]
          | none => Except.error "undefined url")
        (some "https://jsonplaceholder.typicode.com/posts")).1
      = [⟨1, 1, "T", "b"⟩]
    ∧ ([] : List Post) ≠ [⟨1, 1, "T", "b"⟩] := by
  refine ⟨by decide, rfl, by decide⟩

/-- Claim C6 amended: if the session post collection is empty when
sortAndRenderPosts or groupAndRenderPosts is invoked, an implicit fetch is
performed first and only then is the transform applied — but the fetch
passes no endpoint argument (an undefined URL, modelled as `none`); no
previously supplied default endpoint is stored or used. -/
theorem C6_implicit_fetch_amended (env : FetchEnv) (st : PageData)
    (h : st.posts = []) :
    sortAndRenderPosts env st
      = (⟨sortPosts (fetchPosts env none).1 (toggleDir st.sortDirection),
          some (toggleDir st.sortDirection)⟩,
        sortPosts (fetchPosts env none).1 (toggleDir st.sortDirection),
        (fetchPosts env none).2)
    ∧ groupAndRenderPosts env st
      = (⟨groupByUser (fetchPosts env none).1, st.sortDirection⟩,
        groupByUser (fetchPosts env none).1,
        (fetchPosts env none).2) := by
  have hlen : st.posts.length = 0 := by rw [h]; rfl
  constructor
  · simp only [sortAndRenderPosts, hlen, if_true]
  · simp only [groupAndRenderPosts, hlen, if_true]

/-- Witness for the amended claim C6 at a concrete environment and the empty
initial state. -/
theorem C6_implicit_fetch_amended_witness :
    sortAndRenderPosts (fun _ => Except.ok [⟨1, 1, "T", "b"⟩]) ⟨[], none⟩
      = (⟨sortPosts (fetchPosts (fun _ => Except.ok [⟨1, 1, "T", "b"⟩]) none).1
            (toggleDir none), some (toggleDir none)⟩,
        sortPosts (fetchPosts (fun _ => Except.ok [⟨1, 1, "T", "b"⟩]) none).1
          (toggleDir none),
        (fetchPosts (fun _ => Except.ok [⟨1, 1, "T", "b"⟩]) none).2) :=
  (C6_implicit_fetch_amended _ ⟨[], none⟩ rfl).1

/-- Claim C8: audio panel initialization is strictly sequential — its event
trace is the concatenation, in source-list order, of one complete block per
URL (fetch start, fetch-and-decode completion, and, on success, the panel
append) — the panel holds one entry per successfully decoded URL in source
order with failures silently omitted; and for three URLs whose second fails
to decode, the panel holds exactly the 1st and 3rd entries in that order. -/
theorem C8_panel_sequential (env : AudioEnv) (urls : List String) :
    (initAudioPage env urls).1
      = urls.filterMap (fun u => (env u).map (fun b => AudioEntry.mk u b))
    ∧ (initAudioPage env urls).2 = urls.flatMap (loadBlock env)
    ∧ (∀ u1 u2 u3 b1 b3, env u1 = some b1 → env u2 = none → env u3 = some b3 →
        (initAudioPage env [u1, u2, u3]).1
          = [AudioEntry.mk u1 b1, AudioEntry.mk u3 b3]) := by
  refine ⟨initAudioPage_panel env urls, initAudioPage_trace env urls, ?_⟩
  intro u1 u2 u3 b1 b3 h1 h2 h3
  rw [initAudioPage_panel env [u1, u2, u3]]
  simp [h1, h2, h3]

/-- Witness for claim C8: three URLs, the middle one failing to decode, give
a panel with exactly the first and third entries. -/
theorem C8_panel_sequential_witness :
    (initAudioPage (fun u => if u = "b.ogg" then none else some 0)
        ["a.ogg", "b.ogg", "c.ogg"]).1
      = [AudioEntry.mk "a.ogg" 0, AudioEntry.mk "c.ogg" 0] :=
  (C8_panel_sequential (fun u => if u = "b.ogg" then none else some 0)
      ["a.ogg", "b.ogg", "c.ogg"]).2.2
    "a.ogg" "b.ogg" "c.ogg" 0 0 (by decide) (by decide) (by decide)
